import Mathlib

/-!
Verification of the streaming transcription pipeline
(realtime_transcription.rs and system_audio_transcription.rs).

Rust strings are modelled as lists of characters, f32/f64 audio samples and
time values as rationals, and the opaque recognition engine / audio device as
function parameters returning Except values.  Each definition below mirrors
one function or loop of the source; theorems about the spec claims follow the
definitions.
-/

/-- Characters of a Rust string. -/
abbrev Str := List Char

/-- Whitespace test used by trim and split_whitespace. -/
def wsB (c : Char) : Bool := c.isWhitespace

/-- Rust str::to_lowercase, character by character. -/
def lowerStr (s : Str) : Str := s.map Char.toLower

/-- Rust str::trim: drop leading and trailing whitespace. -/
def trimStr (s : Str) : Str := List.rdropWhile wsB (List.dropWhile wsB s)

/-- The normalization used before comparing emitted chunks:
trim then lowercase (accumulated_chunk.trim().to_lowercase()). -/
def normTextKey (s : Str) : Str := lowerStr (trimStr s)

/-- The single space pushed between accumulated fragments. -/
def spaceChar : Char := ' '

/-- Rust str::starts_with on character lists. -/
def isPrefixB (p s : Str) : Bool := decide (s.take p.length = p)

/-- Rust str::ends_with on character lists. -/
def endsWithB (s p : Str) : Bool := isPrefixB p.reverse s.reverse

/-- Rust str::contains (substring search) on character lists. -/
def containsB : Str → Str → Bool
  | [], p => decide (p = [])
  | c :: t, p => isPrefixB p (c :: t) || containsB t p

/-- Helper for split_whitespace: walk the characters, building the current
word in reverse. -/
def splitWsAux : Str → Str → List Str
  | [], cur => if cur = [] then [] else [cur.reverse]
  | c :: rest, cur =>
    if wsB c then
      if cur = [] then splitWsAux rest []
      else cur.reverse :: splitWsAux rest []
    else splitWsAux rest (c :: cur)

/-- Rust str::split_whitespace().collect(): maximal runs of non-whitespace. -/
def splitWs (s : Str) : List Str := splitWsAux s []

/-- First branch of is_repetitive: all words equal the first word,
case-insensitively (words.iter().skip(1).all(...)). -/
def allSameLower : List Str → Bool
  | [] => true
  | w :: rest => rest.all (fun x => decide (lowerStr x = lowerStr w))

/-- The loop of is_repetitive computing max_consecutive: prev is the previous
word, consec the current run length, maxc the maximum run length so far. -/
def maxConsecAux : Str → ℕ → ℕ → List Str → ℕ
  | _, _, maxc, [] => maxc
  | prev, consec, maxc, w :: rest =>
    if lowerStr w = lowerStr prev then
      maxConsecAux w (consec + 1) (max maxc (consec + 1)) rest
    else maxConsecAux w 1 maxc rest

/-- Longest run of consecutive case-insensitively equal words, computed the
way the Rust loop computes max_consecutive (both counters start at 1). -/
def maxConsecutive (ws : List Str) : ℕ :=
  match ws with
  | [] => 1
  | w :: rest => maxConsecAux w 1 1 rest

/-- is_repetitive from system_audio_transcription.rs: fewer than 3 words is
never repetitive; 3+ identical words is repetitive; with 6+ words a run of
more than 3 consecutive identical words is repetitive. -/
def is_repetitive (text : Str) : Bool :=
  let ws := splitWs text
  if ws.length < 3 then false
  else if allSameLower ws then true
  else if 6 ≤ ws.length then decide (3 < maxConsecutive ws)
  else false

/-- The duplicate check and append of capture_and_transcribe_system_audio
(lines 465-491): given the accumulated chunk and a fragment, either reject the
fragment as a duplicate or append it with a single separating space. -/
def dedupStep (acc text : Str) : Str :=
  let text_trimmed := trimStr text
  let accumulated_lower := lowerStr acc
  let text_lower := lowerStr text_trimmed
  let is_duplicate : Bool :=
    if acc = [] then false
    else
      endsWithB accumulated_lower text_lower ||
        (containsB accumulated_lower text_lower && decide (5 < text_lower.length))
  if is_duplicate then acc
  else if acc = [] then text_trimmed
  else acc ++ spaceChar :: text_trimmed

/-- Handling of one successful engine result text in the system-audio loop:
empty or repetitive fragments are dropped, otherwise the dedup/append step
runs. -/
def fragmentStep (acc text : Str) : Str :=
  if text = [] then acc
  else if is_repetitive text then acc
  else dedupStep acc text

/-- The repetition condition exactly as claim C4 words it: at least 3
consecutive identical tokens (case-insensitive), or 3+ tokens that are all
identical. -/
def claimRepetitiveSpec (text : Str) : Bool :=
  let ws := splitWs text
  decide (3 ≤ maxConsecutive ws) || (decide (3 ≤ ws.length) && allSameLower ws)

/-- The duplicate rule exactly as claim C7 words it: reject when the
accumulated text (case-insensitive) ends with the fragment text, or contains
it and the fragment is longer than the minimal length 5; otherwise append
with a single separating space (no separator when the accumulator is
empty). -/
def claimDedupStep (acc text : Str) : Str :=
  let frag := trimStr text
  if endsWithB (lowerStr acc) (lowerStr frag) ||
      (containsB (lowerStr acc) (lowerStr frag) && decide (5 < (lowerStr frag).length)) then
    acc
  else if acc = [] then frag
  else acc ++ spaceChar :: frag

/-- The mutable locals of the system-audio transcription loop that govern
accumulation and emission (accumulated_chunk, silence_start_time viewed as a
flag, chunk_displayed, last_displayed_chunk). -/
structure SysState where
  accumulated : Str
  silenceActive : Bool
  chunkDisplayed : Bool
  lastDisplayed : Str
deriving DecidableEq

/-- One iteration of the system-audio polling loop, abstracted to what it
observes: a quiet pass (too few new samples, or a silent chunk) carrying
whether the 3 s silence hold has elapsed, or a speech chunk carrying the
engine result (none models a failed transcription, some t a returned text). -/
inductive TEvent
  | quiet (elapsed : Bool)
  | speech (engineText : Option Str)

/-- Externally visible effects of the loop: an emitted chunk, or the start of
a brand-new speech turn (chunk_displayed reset, last_displayed cleared). -/
inductive Obs
  | emit (t : Str)
  | newTurn
deriving DecidableEq

/-- check_and_display_chunk (lines 339-373): after the silence hold has
elapsed, emit the accumulated chunk when its normalized form differs from the
last displayed chunk, otherwise clear it silently; when silence is not yet
tracked, start tracking it. -/
def flushCheck (st : SysState) (elapsed : Bool) : SysState × List Obs :=
  if st.silenceActive then
    if elapsed then
      if st.accumulated ≠ [] ∧ st.chunkDisplayed = false then
        if normTextKey st.accumulated ≠ normTextKey st.lastDisplayed then
          (⟨[], false, true, trimStr st.accumulated⟩, [Obs.emit (trimStr st.accumulated)])
        else (⟨[], false, true, st.lastDisplayed⟩, [])
      else (st, [])
    else (st, [])
  else if st.accumulated ≠ [] ∧ st.chunkDisplayed = false then
    ({ st with silenceActive := true }, [])
  else (st, [])

/-- Processing of a speech chunk (lines 441-492): when the previous chunk was
already displayed, start a fresh turn (clear accumulator and last displayed);
always reset silence tracking; then, if the engine returned a text, run the
fragment filter and dedup/append. -/
def speechStep (st : SysState) (engineText : Option Str) : SysState × List Obs :=
  let reset :=
    if st.chunkDisplayed then
      ((⟨[], st.silenceActive, false, []⟩ : SysState), [Obs.newTurn])
    else (st, ([] : List Obs))
  let st2 := { reset.1 with silenceActive := false }
  match engineText with
  | none => (st2, reset.2)
  | some text => ({ st2 with accumulated := fragmentStep st2.accumulated text }, reset.2)

/-- One iteration of the system-audio transcription loop. -/
def sysStep (st : SysState) (e : TEvent) : SysState × List Obs :=
  match e with
  | .quiet elapsed => flushCheck st elapsed
  | .speech r => speechStep st r

/-- Run of the transcription loop over a sequence of iterations. -/
def sysRun (st : SysState) : List TEvent → SysState × List Obs
  | [] => (st, [])
  | e :: es =>
    let s1 := sysStep st e
    let s2 := sysRun s1.1 es
    (s2.1, s1.2 ++ s2.2)

/-- The stop-flush after the loop exits (lines 497-506): emit the pending
accumulated chunk when its normalized form differs from the last displayed
chunk. -/
def stopFlush (st : SysState) : List Obs :=
  if st.accumulated ≠ [] ∧ st.chunkDisplayed = false ∧
      normTextKey st.accumulated ≠ normTextKey st.lastDisplayed then
    [Obs.emit (trimStr st.accumulated)]
  else []

/-- A whole session: the loop iterations followed by the stop-flush. -/
def sysSession (st : SysState) (es : List TEvent) : List Obs :=
  (sysRun st es).2 ++ stopFlush (sysRun st es).1

/-- The no-duplicate-emission invariant on an observation trace: between two
emissions with no new speech turn in between, the normalized texts differ.
The first argument is the normalized form of the previous emission of the
current turn, if any. -/
def traceOk : Option Str → List Obs → Bool
  | _, [] => true
  | _, Obs.newTurn :: rest => traceOk none rest
  | last, Obs.emit t :: rest =>
    (match last with
      | none => true
      | some l => decide (normTextKey t ≠ l)) && traceOk (some (normTextKey t)) rest

/-- The per-segment emission filter of the microphone loop in
realtime_transcription.rs (lines 259-269) and of transcribe_chunk_silent:
trim, then keep only texts that are non-empty, longer than one character and
not starting with a special-token bracket.  Returns the texts emitted for one
chunk, in order. -/
def micEmitChunkTexts (texts : List Str) : List Str :=
  texts.filterMap fun t =>
    let tt := trimStr t
    if tt ≠ [] ∧ 1 < tt.length ∧ isPrefixB ("[_TT_".data) tt = false ∧
        isPrefixB ("[_".data) tt = false then some tt
    else none

/-- Texts emitted as transcription_update events by the microphone loop for a
run of chunks, each chunk given by the engine segment texts for it. -/
def micEmissions (chunks : List (List Str)) : List Str :=
  (chunks.map micEmitChunkTexts).flatten

/-- Whether a list of emitted texts contains two consecutive emissions that
are equal after normalization (trim + lowercase). -/
def hasAdjacentDupNorm : List Str → Bool
  | [] => false
  | [_] => false
  | a :: b :: t => decide (normTextKey a = normTextKey b) || hasAdjacentDupNorm (b :: t)

/-- The engine interaction of one microphone-loop iteration: create_state is
propagated with the question-mark operator (a failure aborts the session),
then the inference result is pattern-matched and a failure merely skips the
chunk.  The value is the list of texts emitted for the chunk. -/
def micIterate (createState : Except Str Unit) (inference : Except Str (List Str)) :
    Except Str (List Str) :=
  match createState with
  | .error e => .error e
  | .ok _ =>
    match inference with
    | .error _ => .ok []
    | .ok segs => .ok (micEmitChunkTexts segs)

/-- The shared audio buffer together with the consumption cursor
(last_processed_samples) of the system-audio session. -/
structure RetBuf where
  buf : List ℚ
  cursor : ℕ
deriving DecidableEq

/-- The capture-thread append (lines 281-291): extend the buffer, and when it
exceeds the retention limit drop the oldest excess samples.  The consumption
cursor lives in the transcription thread and is not touched.  In the source
maxSamples is the constant 30 * 48000. -/
def captureAppendTrim (b : RetBuf) (samples : List ℚ) (maxSamples : ℕ) : RetBuf :=
  if samples = [] then b
  else
    let buf2 := b.buf ++ samples
    if buf2.length > maxSamples then ⟨buf2.drop (buf2.length - maxSamples), b.cursor⟩
    else ⟨buf2, b.cursor⟩

/-- The chunk slice taken by the transcription loop:
buffer[last_processed_samples..current_samples] with current_samples the
buffer length. -/
def takeNewChunk (buf : List ℚ) (cursor : ℕ) : List ℚ :=
  (buf.drop cursor).take (buf.length - cursor)

/-- Outcome of one loop iteration of a capture thread: continue with the new
state, or exit because the running flag was cleared. -/
inductive LoopStep (σ : Type)
  | cont (s : σ)
  | exit

/-- Events seen by the capture thread on one iteration: the event-handle wait
timed out, the device read failed, or samples arrived. -/
inductive ReadEvent
  | waitTimeout
  | readError
  | dat (samples : List ℚ)

/-- One iteration of the system-audio capture thread (lines 239-292): stop
when the running flag is cleared; a wait timeout or a failed
read_from_device_to_deque skips the iteration; data is appended under the
retention limit. -/
def captureIter (running : Bool) (b : RetBuf) (e : ReadEvent) (maxSamples : ℕ) :
    LoopStep RetBuf :=
  if running = false then .exit
  else
    match e with
    | .waitTimeout => .cont b
    | .readError => .cont b
    | .dat samples => .cont (captureAppendTrim b samples maxSamples)

/-- Stream-coordinate view of the shared buffer of the system-audio session:
base is the stream position of the first retained sample, len the number of
retained samples, cursor the consumption cursor (last_processed_samples). -/
structure StreamBuf where
  base : ℕ
  len : ℕ
  cursor : ℕ
deriving DecidableEq

/-- Operations on the shared buffer as performed by the two threads of the
system-audio session: the capture thread appends k samples and trims to
maxSamples (30 * 48000 in the source) without touching the cursor; the
transcription thread polls, taking the new samples as a chunk when at least
minSamples (3 s of audio) are new and then trimming to keepSamples (10 s of
audio) while shifting the cursor. -/
inductive SysOp
  | append (k maxSamples : ℕ)
  | poll (minSamples keepSamples : ℕ)

/-- Effect of one buffer operation; a poll that takes a chunk reports the
chunk as its half-open interval of stream positions. -/
def sysOpStep (b : StreamBuf) : SysOp → StreamBuf × Option (ℕ × ℕ)
  | .append k maxS =>
    let len2 := b.len + k
    if len2 > maxS then (⟨b.base + (len2 - maxS), maxS, b.cursor⟩, none)
    else (⟨b.base, len2, b.cursor⟩, none)
  | .poll minS keepS =>
    if b.len < minS ∨ b.len - b.cursor < minS then (b, none)
    else
      let iv := (b.base + b.cursor, b.base + b.len)
      if b.len > keepS then (⟨b.base + (b.len - keepS), keepS, keepS⟩, some iv)
      else (⟨b.base, b.len, b.len⟩, some iv)

/-- Run of buffer operations, collecting the chunk intervals in order. -/
def sysOpRun (b : StreamBuf) : List SysOp → StreamBuf × List (ℕ × ℕ)
  | [] => (b, [])
  | op :: ops =>
    let s1 := sysOpStep b op
    let s2 := sysOpRun s1.1 ops
    (s2.1, s1.2.toList ++ s2.2)

/-- Side condition on an operation: polls ask for at least one new sample
(min_samples = 3 * sample_rate in the source, and sample rates are
positive). -/
def goodOp : SysOp → Bool
  | .poll minS _ => decide (1 ≤ minS)
  | .append _ _ => true

/-- Stream-coordinate view of the microphone loop buffer: base is the stream
position of the first retained sample, len the number of retained samples.
There is no consumption cursor in this loop. -/
structure MicBuf where
  base : ℕ
  len : ℕ
deriving DecidableEq

/-- Operations on the microphone buffer: the stream callback appends k
samples; the loop polls every 5 seconds. -/
inductive MicOp
  | append (k : ℕ)
  | poll

/-- One microphone-loop buffer operation (realtime_transcription.rs lines
194-212): a poll with at least 2 s of audio takes the last 5 s (saturating at
the buffer start) as the chunk, and drains the front when the buffer exceeds
twice the chunk size. -/
def micOpStep (sampleRate channels : ℕ) (b : MicBuf) : MicOp → MicBuf × Option (ℕ × ℕ)
  | .append k => (⟨b.base, b.len + k⟩, none)
  | .poll =>
    let minS := sampleRate * channels * 2
    let chunkS := sampleRate * channels * 5
    if b.len < minS then (b, none)
    else
      let start := b.len - chunkS
      let iv := (b.base + start, b.base + b.len)
      if b.len > chunkS * 2 then (⟨b.base + (b.len - chunkS), chunkS⟩, some iv)
      else (b, some iv)

/-- Run of microphone buffer operations, collecting chunk intervals. -/
def micOpRun (sampleRate channels : ℕ) (b : MicBuf) : List MicOp → MicBuf × List (ℕ × ℕ)
  | [] => (b, [])
  | op :: ops =>
    let s1 := micOpStep sampleRate channels b op
    let s2 := micOpRun sampleRate channels s1.1 ops
    (s2.1, s1.2.toList ++ s2.2)

/-- Whether a half-open interval of stream positions contains a position. -/
def ivContains (iv : ℕ × ℕ) (pos : ℕ) : Prop := iv.1 ≤ pos ∧ pos < iv.2

/-- The value produced for output index i by resample_audio /
resample_linear: linear interpolation between the two neighbouring input
samples when both exist, the last sample alone at the right edge, nothing
when the source index is out of bounds. -/
def resampleEntry (input : List ℚ) (ratio : ℚ) (i : ℕ) : Option ℚ :=
  let src_pos : ℚ := (i : ℚ) / ratio
  let src_idx : ℕ := (Int.floor src_pos).toNat
  let frac : ℚ := src_pos - (src_idx : ℚ)
  if src_idx + 1 < input.length then
    some (input.getD src_idx 0 * (1 - frac) + input.getD (src_idx + 1) 0 * frac)
  else if src_idx < input.length then some (input.getD src_idx 0)
  else none

/-- resample_audio (system_audio_transcription.rs lines 643-667), identical to
resample_linear (realtime_transcription.rs lines 304-328): identity at equal
rates, otherwise linear interpolation at ratio to_rate / from_rate. -/
def resample_audio (input : List ℚ) (from_rate to_rate : ℕ) : List ℚ :=
  if from_rate = to_rate then input
  else
    let ratio : ℚ := (to_rate : ℚ) / (from_rate : ℚ)
    let output_len : ℕ := (Int.floor ((input.length : ℚ) * ratio)).toNat
    (List.range output_len).filterMap (resampleEntry input ratio)

/-- normalize_audio: scale peak amplitude to 0.8 with clamping, passing
near-silent input through unchanged. -/
def normalize_audio (input : List ℚ) : List ℚ :=
  if input = [] then []
  else
    let max_val := input.foldl (fun m x => max m |x|) 0
    if max_val < 1 / 1000000 then input
    else
      let scale := (8 / 10) / max_val
      input.map fun x => max (-1) (min (x * scale) 1)

/-- A segment reported by the recognition engine: text plus start and end
times in the engine's native unit, centiseconds. -/
structure EngineSegment where
  text : Str
  t0 : ℤ
  t1 : ℤ
deriving DecidableEq

/-- The segment returned to the caller of batch mode: text plus start and end
times in seconds. -/
structure TranscriptionSegment where
  text : Str
  start : ℚ
  end_ : ℚ
deriving DecidableEq

/-- The text filter applied to an engine segment in transcribe_recorded_audio
(and transcribe_chunk_silent): keep the trimmed text when it is non-empty,
longer than one character and does not start with a special-token bracket. -/
def keepSeg (t : Str) : Bool :=
  let tt := trimStr t
  decide (tt ≠ []) && decide (1 < tt.length) &&
    !isPrefixB ("[_TT_".data) tt && !isPrefixB ("[_".data) tt

/-- Collection of the result segments of transcribe_recorded_audio (lines
924-948): filter each engine segment by keepSeg and convert the native
centisecond offsets to seconds by dividing by 100. -/
def collectSegments (segs : List EngineSegment) : List TranscriptionSegment :=
  segs.filterMap fun s =>
    if keepSeg s.text then some ⟨trimStr s.text, (s.t0 : ℚ) / 100, (s.t1 : ℚ) / 100⟩
    else none

/-- The batch return value exactly as claim C8 words it: the ordered list of
engine-reported segments with offsets divided by 100. -/
def claimCollect (segs : List EngineSegment) : List TranscriptionSegment :=
  segs.map fun s => ⟨s.text, (s.t0 : ℚ) / 100, (s.t1 : ℚ) / 100⟩

/-- stop_system_audio_recording_and_transcribe (lines 704-742): return an
error when no audio was captured, otherwise resolve the model and run the
engine (modelled as an opaque function from the conditioned samples to
segments) over the resampled and normalized buffer. -/
def stop_system_audio_recording_and_transcribe (audioBuffer : List ℚ)
    (sampleRateOpt : Option ℕ) (resolveModel : Except Str Str)
    (engine : List ℚ → Except Str (List EngineSegment)) :
    Except Str (List TranscriptionSegment) :=
  let sample_rate := sampleRateOpt.getD 48000
  if audioBuffer = [] then .error ("No audio was recorded".data)
  else
    match resolveModel with
    | .error e => .error e
    | .ok _ =>
      let processed :=
        if sample_rate ≠ 16000 then resample_audio audioBuffer sample_rate 16000
        else audioBuffer
      let normalized := normalize_audio processed
      match engine normalized with
      | .error e => .error ("Transcription failed: ".data ++ e)
      | .ok segs => .ok (collectSegments segs)

/-- start_transcription / start_system_audio_transcription (both files): under
the state lock, reject when already running, otherwise set the running flag
and then resolve the model, propagating a resolution failure with the
question-mark operator.  The returned pair is the running flag after the call
and the command result. -/
def start_transcription (running : Bool) (resolveModel : Except Str Str) :
    Bool × Except Str Unit :=
  if running then (running, .error ("Transcription already running".data))
  else
    match resolveModel with
    | .error e => (true, .error e)
    | .ok _ => (true, .ok ())

example : is_repetitive ("you you you you".data) = true := by decide
example : is_repetitive ("a a a b c d".data) = false := by decide
example : is_repetitive ("a a a a b c".data) = true := by decide
example : dedupStep ("hello world".data) ("world".data) = "hello world".data := by decide
example : dedupStep [] ("hi".data) = "hi".data := by decide
example : dedupStep ("ab".data) ("cd".data) = "ab cd".data := by decide
example : trimStr ("  hi  ".data) = "hi".data := by decide
example : normTextKey (" Hi ".data) = "hi".data := by decide

example :
    sysSession ⟨[], false, false, []⟩
      [TEvent.speech (some ("hello".data)), TEvent.quiet false, TEvent.quiet true] =
      [Obs.emit ("hello".data)] := by decide
example : micEmissions [[("hello".data)], [("hello".data)]] = [("hello".data), ("hello".data)] := by
  decide
example : hasAdjacentDupNorm [("hello".data), ("hello".data)] = true := by decide
example :
    (micOpRun 16000 1 ⟨0, 0⟩ [MicOp.append 48000, MicOp.poll, MicOp.append 16000, MicOp.poll]).2 =
      [(0, 48000), (0, 64000)] := by decide
example : collectSegments [⟨"a".data, 150, 300⟩] = [] := by decide
example : captureAppendTrim ⟨[1, 2, 3, 4, 5], 5⟩ [6] 4 = ⟨[3, 4, 5, 6], 5⟩ := by decide

/-- The leading-whitespace drop leaves a right-trimmed, left-trimmed text
unchanged: its first character is not whitespace. -/
theorem dropWhile_rdropWhile_dropWhile (l : Str) :
    List.dropWhile wsB (List.rdropWhile wsB (List.dropWhile wsB l)) =
      List.rdropWhile wsB (List.dropWhile wsB l) := by
  apply List.dropWhile_eq_self_iff.mpr
  intro hl
  obtain ⟨t, ht⟩ := List.rdropWhile_prefix wsB (List.dropWhile wsB l)
  have hlen : 0 < (List.dropWhile wsB l).length := by
    have := List.IsPrefix.length_le ⟨t, ht⟩
    omega
  have hget := List.dropWhile_get_zero_not (p := wsB) l hlen
  have hsame : (List.rdropWhile wsB (List.dropWhile wsB l)).get ⟨0, hl⟩ =
      (List.dropWhile wsB l).get ⟨0, hlen⟩ := by
    simp only [List.get_eq_getElem]
    exact List.IsPrefix.getElem ⟨t, ht⟩ hl
  rw [hsame]
  exact hget

/-- Rust trim is idempotent. -/
theorem trimStr_trimStr (l : Str) : trimStr (trimStr l) = trimStr l := by
  unfold trimStr
  rw [dropWhile_rdropWhile_dropWhile, List.rdropWhile_idempotent]

/-- Normalizing an already-trimmed text gives the same key as normalizing the
original. -/
theorem normTextKey_trimStr (s : Str) : normTextKey (trimStr s) = normTextKey s := by
  unfold normTextKey
  rw [trimStr_trimStr]

/-- The duplicate/append step of the code computes exactly the step described
by claim C7 (the code's extra empty-accumulator shortcut is equivalent). -/
theorem dedupStep_eq_claimDedupStep (acc text : Str) :
    dedupStep acc text = claimDedupStep acc text := by
  by_cases hacc : acc = []
  · subst hacc
    by_cases htl : trimStr text = []
    · simp [dedupStep, claimDedupStep, endsWithB, isPrefixB, containsB, lowerStr, htl]
    · have htl2 : (trimStr text).map Char.toLower ≠ [] := by
        simpa using htl
      simp [dedupStep, claimDedupStep, endsWithB, isPrefixB, containsB, lowerStr, htl, htl2]
  · simp [dedupStep, claimDedupStep, hacc]

/-- Unfolding equation for traceOk at an emission. -/
theorem traceOk_emit (last : Option Str) (t : Str) (rest : List Obs) :
    traceOk last (Obs.emit t :: rest) =
      ((match last with
        | none => true
        | some l => decide (normTextKey t ≠ l)) && traceOk (some (normTextKey t)) rest) := rfl

/-- A session splits into the first step's observations and the rest. -/
theorem sysSession_cons (st : SysState) (e : TEvent) (es : List TEvent) :
    sysSession st (e :: es) = (sysStep st e).2 ++ sysSession (sysStep st e).1 es := by
  simp [sysSession, sysRun, List.append_assoc]

/-- Each loop iteration either observes nothing and keeps the last displayed
chunk, or starts a new turn, or emits the trimmed accumulator after checking
that its normalized form differs from the last displayed chunk. -/
theorem sysStep_cases (st : SysState) (e : TEvent) :
    ((sysStep st e).2 = [] ∧ (sysStep st e).1.lastDisplayed = st.lastDisplayed)
    ∨ (sysStep st e).2 = [Obs.newTurn]
    ∨ ((sysStep st e).2 = [Obs.emit (trimStr st.accumulated)] ∧
        (sysStep st e).1.lastDisplayed = trimStr st.accumulated ∧
        normTextKey st.accumulated ≠ normTextKey st.lastDisplayed) := by
  cases e with
  | quiet elapsed =>
    unfold sysStep flushCheck
    cases elapsed <;> split_ifs with h1 h2 h3 h4 <;> simp_all
  | speech r =>
    unfold sysStep speechStep
    by_cases hd : st.chunkDisplayed <;> cases r <;> simp [hd]

/-- Core invariant: in any run of the transcription loop followed by the
stop-flush, between two emissions with no new speech turn in between the
normalized texts differ.  The last parameter carries the normalized form of
the previous emission of the current turn, which must agree with the
last_displayed_chunk variable. -/
theorem sysSession_traceOk (es : List TEvent) (st : SysState) (last : Option Str)
    (hinv : ∀ l, last = some l → l = normTextKey st.lastDisplayed) :
    traceOk last (sysSession st es) = true := by
  induction es generalizing st last with
  | nil =>
    show traceOk last ([] ++ stopFlush st) = true
    rw [List.nil_append]
    unfold stopFlush
    split_ifs with h
    · rw [traceOk_emit]
      cases last with
      | none => rfl
      | some l =>
        have hl : l = normTextKey st.lastDisplayed := hinv l rfl
        have hne : normTextKey (trimStr st.accumulated) ≠ l := by
          rw [normTextKey_trimStr, hl]; exact h.2.2
        simp [hne, traceOk]
    · rfl
  | cons e es ih =>
    rw [sysSession_cons]
    rcases sysStep_cases st e with ⟨hobs, hlast⟩ | hobs | ⟨hobs, hlast, hne⟩
    · rw [hobs, List.nil_append]
      exact ih _ _ (fun l hl => (hinv l hl).trans (by rw [hlast]))
    · rw [hobs]
      exact ih _ none (fun l hl => by cases hl)
    · rw [hobs, List.singleton_append, traceOk_emit, Bool.and_eq_true]
      constructor
      · cases last with
        | none => rfl
        | some l =>
          have hl := hinv l rfl
          have hne2 : normTextKey (trimStr st.accumulated) ≠ l := by
            rw [normTextKey_trimStr, hl]; exact hne
          exact decide_eq_true hne2
      · exact ih _ _ (fun l hl => by
          injection hl with h2
          rw [← h2, hlast])

/-- Invariant of the system-audio buffer operations: every chunk interval a
run will emit starts at or after the current stream position of the cursor,
and the emitted intervals are pairwise disjoint (each ends before the next
begins). -/
theorem sysOpRun_disjoint (ops : List SysOp) (b : StreamBuf)
    (hgood : ops.all goodOp = true) :
    (∀ iv ∈ (sysOpRun b ops).2, b.base + b.cursor ≤ iv.1) ∧
      List.Pairwise (fun p q => p.2 ≤ q.1) (sysOpRun b ops).2 := by
  induction ops generalizing b with
  | nil => simp [sysOpRun]
  | cons op ops ih =>
    rw [List.all_cons, Bool.and_eq_true] at hgood
    obtain ⟨hop, hops⟩ := hgood
    cases op with
    | append k maxS =>
      simp only [sysOpRun, sysOpStep]
      split_ifs with h
      · simp only [Option.toList_none, List.nil_append]
        obtain ⟨h1, h2⟩ := ih ⟨b.base + (b.len + k - maxS), maxS, b.cursor⟩ hops
        dsimp only at h1
        exact ⟨fun iv hiv => le_trans (by omega) (h1 iv hiv), h2⟩
      · simp only [Option.toList_none, List.nil_append]
        obtain ⟨h1, h2⟩ := ih ⟨b.base, b.len + k, b.cursor⟩ hops
        dsimp only at h1
        exact ⟨fun iv hiv => h1 iv hiv, h2⟩
    | poll minS keepS =>
      have hmin : 1 ≤ minS := of_decide_eq_true hop
      simp only [sysOpRun, sysOpStep]
      split_ifs with h1 h2
      · simp only [Option.toList_none, List.nil_append]
        exact ih b hops
      · push_neg at h1
        have hcur : b.cursor < b.len := by omega
        simp only [Option.toList_some, List.singleton_append]
        obtain ⟨ih1, ih2⟩ := ih ⟨b.base + (b.len - keepS), keepS, keepS⟩ hops
        dsimp only at ih1
        constructor
        · intro iv hiv
          rcases List.mem_cons.mp hiv with hiv | hiv
          · subst hiv; dsimp only; omega
          · have := ih1 iv hiv
            omega
        · refine List.Pairwise.cons ?_ ih2
          intro q hq
          have := ih1 q hq
          dsimp only
          omega
      · push_neg at h1
        have hcur : b.cursor < b.len := by omega
        simp only [Option.toList_some, List.singleton_append]
        obtain ⟨ih1, ih2⟩ := ih ⟨b.base, b.len, b.len⟩ hops
        dsimp only at ih1
        constructor
        · intro iv hiv
          rcases List.mem_cons.mp hiv with hiv | hiv
          · subst hiv; dsimp only; omega
          · have := ih1 iv hiv
            omega
        · refine List.Pairwise.cons ?_ ih2
          intro q hq
          have := ih1 q hq
          dsimp only
          omega

/-- The slice buffer[cursor..length] is exactly the samples from the cursor to
the buffer end. -/
theorem takeNewChunk_eq_drop (buf : List ℚ) (cursor : ℕ) :
    takeNewChunk buf cursor = buf.drop cursor := by
  unfold takeNewChunk
  rw [← List.length_drop]
  exact List.take_length _

/-- collectSegments filters by the text condition and converts offsets. -/
theorem collectSegments_eq_filter_map (segs : List EngineSegment) :
    collectSegments segs =
      (segs.filter fun s => keepSeg s.text).map
        fun s => ⟨trimStr s.text, (s.t0 : ℚ) / 100, (s.t1 : ℚ) / 100⟩ := by
  induction segs with
  | nil => rfl
  | cons s rest ih =>
    simp only [collectSegments, List.filterMap_cons, List.filter_cons] at *
    by_cases h : keepSeg s.text
    · simp [h, ih]
    · simp [h, ih]

/-- Structural characterization of is_repetitive. -/
theorem is_repetitive_iff (t : Str) :
    is_repetitive t = true ↔
      (3 ≤ (splitWs t).length ∧ allSameLower (splitWs t) = true) ∨
        (6 ≤ (splitWs t).length ∧ 3 < maxConsecutive (splitWs t)) := by
  simp only [is_repetitive]
  split_ifs with h1 h2 h3
  · simp only [Bool.false_eq_true, false_iff]
    rintro (⟨ha, _⟩ | ⟨ha, _⟩) <;> omega
  · simp only [true_iff]
    exact Or.inl ⟨by omega, h2⟩
  · rw [decide_eq_true_iff]
    constructor
    · intro hc
      exact Or.inr ⟨h3, hc⟩
    · rintro (⟨_, hs⟩ | ⟨_, hc⟩)
      · exact absurd hs h2
      · exact hc
  · simp only [Bool.false_eq_true, false_iff]
    rintro (⟨_, hs⟩ | ⟨hl, _⟩)
    · exact absurd hs h2
    · omega

/-- An engine failure on a speech chunk behaves exactly like an empty engine
result: nothing is accumulated, everything else proceeds. -/
theorem speechStep_none_eq_empty (st : SysState) :
    speechStep st none = speechStep st (some []) := by
  unfold speechStep
  simp [fragmentStep]

/-- Claim C1 (code bug): a start command whose model resolution fails returns
the error synchronously, but the running flag has already been set and is
never cleared, so a second start command is rejected as already running.  The
claim (and the spec) say the session returns to Idle so that the second start
is not rejected. -/
theorem C1_start_failure_keeps_running_flag :
    start_transcription false (Except.error ("Model file not found".data)) =
      (true, Except.error ("Model file not found".data)) ∧
    start_transcription
        (start_transcription false (Except.error ("Model file not found".data))).1
        (Except.ok ("models".data)) =
      (true, Except.error ("Transcription already running".data)) :=
  ⟨rfl, rfl⟩

/-- Claim C2, counterexample: the microphone realtime loop emits each
transcription fragment directly, with no comparison against the previously
emitted text, so two successive chunks transcribed to the same text produce
two consecutive identical emissions. -/
theorem C2_mic_duplicate_emission :
    micEmissions [[("hello".data)], [("hello".data)]] =
      [("hello".data), ("hello".data)] ∧
    hasAdjacentDupNorm (micEmissions [[("hello".data)], [("hello".data)]]) = true := by
  constructor <;> decide

/-- Claim C2, amended: in the system-audio session, an emission (silence-flush
or stop-flush) happens only when the normalized candidate differs from the
previously emitted normalized text, so within one speech turn the same
normalized text is never emitted twice consecutively; the second conjunct
shows the machine does emit. -/
theorem C2_flush_no_duplicate_emission :
    (∀ (st : SysState) (es : List TEvent),
        traceOk (some (normTextKey st.lastDisplayed)) (sysSession st es) = true) ∧
    sysSession ⟨[], false, false, []⟩
        [TEvent.speech (some ("hello".data)), TEvent.quiet false, TEvent.quiet true] =
      [Obs.emit ("hello".data)] :=
  ⟨fun st es =>
    sysSession_traceOk es st _ (fun l hl => by injection hl with h; exact h.symm),
   by decide⟩

/-- Claim C3, counterexample: with a 16 kHz mono configuration, the
microphone loop polled after 3 s and again after 1 s more takes the whole
buffer both times (last-5-seconds window saturating at the start), so stream
position 0 lies in both chunks — the chunks are not disjoint and no cursor is
advanced. -/
theorem C3_mic_chunks_overlap :
    (micOpRun 16000 1 ⟨0, 0⟩ [MicOp.append 48000, MicOp.poll, MicOp.append 16000,
        MicOp.poll]).2 = [(0, 48000), (0, 64000)] ∧
    ivContains (0, 48000) 0 ∧ ivContains (0, 64000) 0 := by
  refine ⟨by decide, ?_, ?_⟩ <;> exact ⟨by decide, by decide⟩

/-- Claim C3, amended: in the system-audio loop every chunk is exactly the
samples between the cursor and the buffer end, the cursor advances to the
buffer end (then both shift under the 10 s trim), and the chunk intervals of
any run are pairwise disjoint in stream coordinates; the microphone loop has
no cursor and its chunks may overlap. -/
theorem C3_system_chunks_disjoint :
    (∀ (buf : List ℚ) (cursor : ℕ), takeNewChunk buf cursor = buf.drop cursor) ∧
    (∀ (b : StreamBuf) (minS keepS : ℕ), 1 ≤ minS → minS ≤ b.len - b.cursor →
        (sysOpStep b (SysOp.poll minS keepS)).2 =
          some (b.base + b.cursor, b.base + b.len) ∧
        (sysOpStep b (SysOp.poll minS keepS)).1.cursor = min keepS b.len) ∧
    (∀ (b : StreamBuf) (ops : List SysOp), ops.all goodOp = true →
        List.Pairwise (fun p q => p.2 ≤ q.1) (sysOpRun b ops).2) := by
  refine ⟨takeNewChunk_eq_drop, ?_, fun b ops h => (sysOpRun_disjoint ops b h).2⟩
  intro b minS keepS hmin hnew
  have hguard : ¬(b.len < minS ∨ b.len - b.cursor < minS) := by omega
  simp only [sysOpStep]
  rw [if_neg hguard]
  split_ifs with h
  · exact ⟨rfl, by dsimp only; omega⟩
  · exact ⟨rfl, by dsimp only; omega⟩

/-- Witness for C3_system_chunks_disjoint at concrete inputs. -/
theorem C3_system_chunks_disjoint_witness :
    (1 ≤ 3 ∧ 3 ≤ (⟨0, 7, 2⟩ : StreamBuf).len - (⟨0, 7, 2⟩ : StreamBuf).cursor) ∧
    takeNewChunk [1, 2, 3] 1 = ([1, 2, 3] : List ℚ).drop 1 ∧
    ((sysOpStep ⟨0, 7, 2⟩ (SysOp.poll 3 10)).2 = some (2, 7) ∧
      (sysOpStep ⟨0, 7, 2⟩ (SysOp.poll 3 10)).1.cursor = min 10 7) ∧
    ([SysOp.append 5 100, SysOp.poll 3 10, SysOp.append 4 100,
        SysOp.poll 3 10].all goodOp = true) ∧
    List.Pairwise (fun p q => p.2 ≤ q.1)
      (sysOpRun ⟨0, 0, 0⟩ [SysOp.append 5 100, SysOp.poll 3 10, SysOp.append 4 100,
        SysOp.poll 3 10]).2 :=
  ⟨⟨by decide, by decide⟩,
   C3_system_chunks_disjoint.1 [1, 2, 3] 1,
   C3_system_chunks_disjoint.2.1 ⟨0, 7, 2⟩ 3 10 (by decide) (by decide),
   by decide,
   C3_system_chunks_disjoint.2.2 ⟨0, 0, 0⟩ _ (by decide)⟩

/-- Claim C4, counterexample: a fragment with exactly 3 consecutive identical
tokens among 6 distinct-tailed tokens is NOT rejected by the code (the code
requires more than 3 consecutive identical tokens, and only for fragments of
6 or more tokens), while the claim's condition rejects it. -/
theorem C4_three_consecutive_not_rejected :
    is_repetitive ("a a a b c d".data) = false ∧
      claimRepetitiveSpec ("a a a b c d".data) = true := by
  constructor <;> decide

/-- Claim C4, amended: a fragment is rejected as repetitive iff it has at
least 3 tokens all identical case-insensitively, or it has at least 6 tokens
and a run of more than 3 (at least 4) consecutive identical tokens; and the
fragment "you you you you" is rejected regardless of accumulator state. -/
theorem C4_repetitive_characterization :
    (∀ t : Str, is_repetitive t = true ↔
        (3 ≤ (splitWs t).length ∧ allSameLower (splitWs t) = true) ∨
          (6 ≤ (splitWs t).length ∧ 3 < maxConsecutive (splitWs t))) ∧
    (∀ acc : Str, fragmentStep acc ("you you you you".data) = acc) := by
  refine ⟨is_repetitive_iff, fun acc => ?_⟩
  simp only [fragmentStep]
  rw [if_neg (by decide), if_pos (by decide)]

/-- Witness for C4_repetitive_characterization. -/
theorem C4_repetitive_characterization_witness :
    is_repetitive ("you you you you".data) = true ∧
      fragmentStep ("anything".data) ("you you you you".data) = "anything".data :=
  ⟨(C4_repetitive_characterization.1 _).mpr (Or.inl ⟨by decide, by decide⟩),
   C4_repetitive_characterization.2 ("anything".data)⟩

/-- Claim C5 (code bug): the capture-thread trim drains the front of the
buffer without shifting the consumption cursor.  At the concrete input the
buffer of 5 samples with cursor 5 receives one more sample under limit 4: two
front samples are dropped, the cursor stays 5 — it is not shifted down by the
trimmed amount (5 - 2 = 3) and now exceeds the buffer length 4. -/
theorem C5_capture_trim_ignores_cursor :
    captureAppendTrim ⟨[1, 2, 3, 4, 5], 5⟩ [6] 4 = ⟨[3, 4, 5, 6], 5⟩ ∧
    ¬((captureAppendTrim ⟨[1, 2, 3, 4, 5], 5⟩ [6] 4).cursor ≤
        (captureAppendTrim ⟨[1, 2, 3, 4, 5], 5⟩ [6] 4).buf.length) ∧
    (captureAppendTrim ⟨[1, 2, 3, 4, 5], 5⟩ [6] 4).cursor ≠ 5 - (6 - 4) := by
  refine ⟨by decide, by decide, by decide⟩

/-- Claim C6: a device read error on one read leaves the capture loop running
with the buffer untouched; an engine failure on one speech chunk of the
system-audio loop has exactly the effect of an empty result (chunk skipped,
loop state otherwise updated as usual); an inference failure in the
microphone loop emits nothing and is not fatal. -/
theorem C6_transient_failures_skip_chunk :
    (∀ (b : RetBuf) (maxS : ℕ),
        captureIter true b ReadEvent.readError maxS = LoopStep.cont b) ∧
    (∀ st : SysState, sysStep st (TEvent.speech none) = sysStep st (TEvent.speech (some []))) ∧
    (∀ e : Str, micIterate (Except.ok ()) (Except.error e) = Except.ok []) :=
  ⟨fun _ _ => rfl, fun st => speechStep_none_eq_empty st, fun _ => rfl⟩

/-- Claim C7: for a non-empty, non-repetitive fragment, the code's
duplicate/append step computes exactly the step described by the claim. -/
theorem C7_duplicate_fragment_rule (acc text : Str) (hne : text ≠ [])
    (hrep : is_repetitive text = false) :
    fragmentStep acc text = claimDedupStep acc text := by
  unfold fragmentStep
  rw [if_neg hne, if_neg (by simp [hrep])]
  exact dedupStep_eq_claimDedupStep acc text

/-- Witness for C7_duplicate_fragment_rule. -/
theorem C7_duplicate_fragment_rule_witness :
    (("world".data : Str) ≠ [] ∧ is_repetitive ("world".data) = false) ∧
    fragmentStep ("hello world".data) ("world".data) =
      claimDedupStep ("hello world".data) ("world".data) :=
  ⟨⟨by decide, by decide⟩, C7_duplicate_fragment_rule _ _ (by decide) (by decide)⟩

/-- Claim C8, counterexample: an engine segment whose text is a single
character is dropped by the code's text filter, so the returned list is not
the full list of engine-reported segments required by the claim. -/
theorem C8_short_segment_dropped :
    collectSegments [⟨"a".data, 150, 300⟩] = [] ∧
      collectSegments [⟨"a".data, 150, 300⟩] ≠ claimCollect [⟨"a".data, 150, 300⟩] := by
  have h : collectSegments [(⟨"a".data, 150, 300⟩ : EngineSegment)] = [] := by decide
  refine ⟨h, ?_⟩
  rw [h]
  simp [claimCollect]

/-- Claim C8, amended: batch mode returns, in order, those engine segments
whose trimmed text survives the filter, with trimmed text and with offsets
converted from centiseconds to seconds by dividing by 100; a surviving
segment with native offsets (150, 300) yields start 1.5 and end 3.0. -/
theorem C8_batch_segment_conversion :
    (∀ segs : List EngineSegment,
        collectSegments segs =
          (segs.filter fun s => keepSeg s.text).map
            fun s => ⟨trimStr s.text, (s.t0 : ℚ) / 100, (s.t1 : ℚ) / 100⟩) ∧
    collectSegments [⟨"hello world".data, 150, 300⟩] =
      [⟨"hello world".data, 3 / 2, 3⟩] := by
  refine ⟨collectSegments_eq_filter_map, ?_⟩
  have hk : keepSeg ("hello world".data) = true := by decide
  have ht : trimStr ("hello world".data) = "hello world".data := by decide
  simp only [collectSegments, List.filterMap_cons, List.filterMap_nil, hk, if_pos, ht]
  norm_num

/-- Claim C9: resampling at equal rates returns the input unchanged;
otherwise the output is the per-index values over indices up to
floor(length * ratio) with ratio = to_rate / from_rate, where an index whose
floored source position has a right neighbour interpolates linearly with the
fractional part, and an index whose floored source position is beyond the
input bounds produces nothing. -/
theorem C9_resample_linear_interpolation :
    (∀ (input : List ℚ) (r : ℕ), resample_audio input r r = input) ∧
    (∀ (input : List ℚ) (f t : ℕ), f ≠ t →
        resample_audio input f t =
          (List.range (Int.floor ((input.length : ℚ) * ((t : ℚ) / (f : ℚ)))).toNat).filterMap
            (resampleEntry input ((t : ℚ) / (f : ℚ)))) ∧
    (∀ (input : List ℚ) (ratio : ℚ) (i : ℕ),
        (Int.floor ((i : ℚ) / ratio)).toNat + 1 < input.length →
        resampleEntry input ratio i =
          some (input.getD (Int.floor ((i : ℚ) / ratio)).toNat 0 *
              (1 - ((i : ℚ) / ratio - ((Int.floor ((i : ℚ) / ratio)).toNat : ℚ))) +
            input.getD ((Int.floor ((i : ℚ) / ratio)).toNat + 1) 0 *
              ((i : ℚ) / ratio - ((Int.floor ((i : ℚ) / ratio)).toNat : ℚ)))) ∧
    (∀ (input : List ℚ) (ratio : ℚ) (i : ℕ),
        input.length ≤ (Int.floor ((i : ℚ) / ratio)).toNat →
        resampleEntry input ratio i = none) := by
  refine ⟨?_, ?_, ?_, ?_⟩
  · intro input r
    simp [resample_audio]
  · intro input f t h
    simp [resample_audio, h]
  · intro input ratio i h
    simp only [resampleEntry]
    rw [if_pos h]
  · intro input ratio i h
    simp only [resampleEntry]
    rw [if_neg (by omega), if_neg (by omega)]

/-- Witness for C9_resample_linear_interpolation at concrete inputs. -/
theorem C9_resample_linear_interpolation_witness :
    resample_audio [0, 1, 0] 5 5 = [0, 1, 0] ∧
    ((Int.floor ((0 : ℚ) / 2)).toNat + 1 < ([0, 1] : List ℚ).length) ∧
    resampleEntry [0, 1] 2 0 =
      some (([0, 1] : List ℚ).getD (Int.floor ((0 : ℚ) / 2)).toNat 0 *
          (1 - ((0 : ℚ) / 2 - ((Int.floor ((0 : ℚ) / 2)).toNat : ℚ))) +
        ([0, 1] : List ℚ).getD ((Int.floor ((0 : ℚ) / 2)).toNat + 1) 0 *
          ((0 : ℚ) / 2 - ((Int.floor ((0 : ℚ) / 2)).toNat : ℚ))) ∧
    (([] : List ℚ).length ≤ (Int.floor ((0 : ℚ) / 1)).toNat) ∧
    resampleEntry [] 1 0 = none :=
  ⟨C9_resample_linear_interpolation.1 [0, 1, 0] 5,
   by simp,
   C9_resample_linear_interpolation.2.2.1 [0, 1] 2 0 (by simp),
   Nat.zero_le _,
   C9_resample_linear_interpolation.2.2.2 [] 1 0 (Nat.zero_le _)⟩

/-- Claim C10: stopping the batch recorder with an empty captured buffer
returns the "No audio was recorded" error for every sample rate, model
resolution outcome and engine — in particular the result does not depend on
the engine, which is never invoked. -/
theorem C10_empty_recording_error :
    ∀ (rateOpt : Option ℕ) (resolveModel : Except Str Str)
      (engine : List ℚ → Except Str (List EngineSegment)),
      stop_system_audio_recording_and_transcribe [] rateOpt resolveModel engine =
        Except.error ("No audio was recorded".data) :=
  fun _ _ _ => rfl
